import Mathlib

/-!
Verification of tek-s3 server behaviors: a shallow embedding of the catalog,
MRC cache, HTTP front-end decision logic, CM callback policies and the binary
VDF decoder, with theorems checking the specification claims.
-/

namespace TekS3

/-! ## MRC cache eviction time (server.cpp, tsc_lws_cb, /mrc path)

The eviction time is computed as `((now + 60) / 300 * 300 + 240)` in unix
seconds (server.cpp line 482). -/

/-- Scheduled eviction time for an MRC cache entry inserted at unix time
`now`, as computed in `tsc_lws_cb`: `((now + 60) / 300 * 300 + 240)`. -/
def mrc_eviction_time (now : Nat) : Nat :=
  (now + 60) / 300 * 300 + 240

/-! ## Conditional GET on manifest routes (server.cpp lines 258-279)

The handler copies the If-Modified-Since header; if present and parseable it
responds 304 without a body when `state.timestamp <= timegm(&tm)`, otherwise
it proceeds to the 200 path serving the manifest body. -/

/-- Outcome of the conditional-GET decision for a manifest route. -/
structure CondGetResult where
  status : Nat
  has_body : Bool
deriving DecidableEq, Repr

/-- Conditional-GET decision of `tsc_lws_cb` for manifest routes while the
server is running: `hdr_time` is the parsed If-Modified-Since value (`none`
when the header is absent or fails to parse), `ts` is `state.timestamp`. -/
def manifest_cond_get (hdr_time : Option Int) (ts : Int) : CondGetResult :=
  match hdr_time with
  | some t => if ts ≤ t then ⟨304, false⟩ else ⟨200, true⟩
  | none => ⟨200, true⟩

/-- Full manifest-route response status selection including the global status
gate: any route while not running returns 503 (server.cpp lines 248-251). -/
def manifest_route_result (running : Bool) (hdr_time : Option Int) (ts : Int) :
    CondGetResult :=
  if running then manifest_cond_get hdr_time ts else ⟨503, true⟩

/-! ## MRC cache lookup (server.cpp lines 424-427, 489-492)

`mrc = it == state.mrcs.end() ? 0 : it->second.mrc; if (!mrc) { fetch }`. -/

/-- MRC cache entry: manifest ID, request code and scheduled eviction
time in microseconds (`sul.us`), mirroring `struct mrc_cache`. -/
structure MrcEntry where
  manifest_id : Nat
  mrc : Nat
  evict_us : Int
deriving DecidableEq, Repr

/-- Lookup in the MRC cache, modelled as an association list ordered by key
(std::map iteration order); `find` returns the unique entry for the key. -/
def mrc_lookup (cache : List (Nat × MrcEntry)) (mid : Nat) : Option MrcEntry :=
  match cache with
  | [] => none
  | (k, e) :: rest => if k = mid then some e else mrc_lookup rest mid

/-- The value the handler reads from the cache:
`it == end ? 0 : it->second.mrc`. -/
def cached_mrc (cache : List (Nat × MrcEntry)) (mid : Nat) : Nat :=
  match mrc_lookup cache mid with
  | none => 0
  | some e => e.mrc

/-- Path taken by the `/mrc` handler after the cache check: serve the cached
code, or perform account selection and a fresh CM fetch (`if (!mrc)`). -/
inductive MrcHandlerPath where
  | serve (mrc : Nat)
  | fetch
deriving DecidableEq, Repr

/-- The `/mrc` handler's cache decision in `tsc_lws_cb`. -/
def mrc_handler_path (cache : List (Nat × MrcEntry)) (mid : Nat) :
    MrcHandlerPath :=
  let mrc := cached_mrc cache mid
  if mrc = 0 then .fetch else .serve mrc

/-! ## MRC cache insertion (server.cpp lines 468-488)

`state.mrcs` is a `std::map` keyed by manifest ID; modelled as an association
list sorted strictly by key.  When 128 or more entries are present, the map's
first entry (smallest key) has its timer cancelled and is erased before the
new entry is emplaced; emplacing an existing key keeps the entry and all of
its fields are then assigned. -/

/-- `std::map::emplace` followed by field assignment: ordered
insert-or-overwrite into a key-sorted association list. -/
def mrcs_emplace (cache : List (Nat × MrcEntry)) (mid : Nat) (e : MrcEntry) :
    List (Nat × MrcEntry) :=
  match cache with
  | [] => [(mid, e)]
  | (k, v) :: rest =>
    if mid < k then (mid, e) :: (k, v) :: rest
    else if mid = k then (k, e) :: rest
    else (k, v) :: mrcs_emplace rest mid e

/-- The `/mrc` handler's cache insertion: evict the map's first entry
(cancelling its eviction timer) when 128 entries or more are present, then
emplace the new entry.  The second component is the evicted entry whose
timer `lws_sul_cancel` was called on, if any. -/
def mrc_cache_insert (cache : List (Nat × MrcEntry)) (mid : Nat)
    (e : MrcEntry) : List (Nat × MrcEntry) × Option (Nat × MrcEntry) :=
  match cache with
  | [] => ([(mid, e)], none)
  | first :: rest =>
    if 128 ≤ (first :: rest).length then (mrcs_emplace rest mid e, some first)
    else (mrcs_emplace (first :: rest) mid e, none)

/-! ## Encoding negotiation (server.cpp lines 114-139, 286-341) -/

/-- Possible encoding types for manifest responses (`enum class enc_type`). -/
inductive EncType where
  | none
  | deflate
  | brotli
  | zstd
deriving DecidableEq, Repr

/-- One pre-compressed variant of a manifest buffer: whether the buffer
pointer is non-null and its size. -/
structure CompBuf where
  present : Bool
  size : Nat
deriving DecidableEq, Repr

/-- The manifest buffer set handed to `negotiate_enc`: uncompressed size and
the per-codec pre-compressed variants. -/
structure HttpBuf where
  buf_size : Nat
  deflate : CompBuf
  brotli : CompBuf
  zstd : CompBuf
deriving DecidableEq, Repr

/-- `std::string_view::contains`: whether `pat` occurs as a contiguous
substring of `haystack`. -/
def contains_sub (haystack pat : List Char) : Bool :=
  decide (pat <:+: haystack)

/-- One candidate-codec step of `negotiate_enc`: if the codec's buffer is
non-null, its name occurs in the Accept-Encoding value and its size beats the
running best, it becomes the current choice. -/
def enc_step (cand : EncType) (c : CompBuf) (name : List Char)
    (accept : List Char) (cur : EncType × Nat) : EncType × Nat :=
  if c.present = true ∧ contains_sub accept name = true ∧ c.size < cur.2
  then (cand, c.size) else cur

/-- `negotiate_enc`: select the response encoding from the Accept-Encoding
header value (a character list; `accept.contains(name)` is a substring test)
and the buffer sizes, keeping a running best size that starts at the
uncompressed size; candidates are tried in the order deflate, brotli,
zstd. -/
def negotiate_enc (accept : List Char) (buf : HttpBuf) : EncType :=
  if accept.isEmpty then .none
  else
    (enc_step .zstd buf.zstd "zstd".toList accept
      (enc_step .brotli buf.brotli "br".toList accept
        (enc_step .deflate buf.deflate "deflate".toList accept
          (.none, buf.buf_size)))).1

/-- Whether a codec may be chosen for this request: its buffer is present,
its name occurs in the Accept-Encoding header, and its compressed size is
strictly smaller than the uncompressed size.  `enc_type::none` never
qualifies. -/
def enc_qualifies (accept : List Char) (buf : HttpBuf) : EncType → Prop
  | .none => False
  | .deflate => buf.deflate.present = true ∧
      contains_sub accept "deflate".toList = true ∧
      buf.deflate.size < buf.buf_size
  | .brotli => buf.brotli.present = true ∧
      contains_sub accept "br".toList = true ∧ buf.brotli.size < buf.buf_size
  | .zstd => buf.zstd.present = true ∧
      contains_sub accept "zstd".toList = true ∧ buf.zstd.size < buf.buf_size

instance (accept : List Char) (buf : HttpBuf) (c : EncType) :
    Decidable (enc_qualifies accept buf c) := by
  cases c <;> simp only [enc_qualifies] <;> infer_instance

/-- Size of the body that is sent for each encoding choice (from the
`switch (enc)` in `tsc_lws_cb`). -/
def enc_size (buf : HttpBuf) : EncType → Nat
  | .none => buf.buf_size
  | .deflate => buf.deflate.size
  | .brotli => buf.brotli.size
  | .zstd => buf.zstd.size

/-- Content-Encoding header emitted for each choice: none for identity,
otherwise the codec's name (`set_enc` calls in `tsc_lws_cb`). -/
def enc_header : EncType → Option (List Char)
  | .none => Option.none
  | .deflate => some "deflate".toList
  | .brotli => some "br".toList
  | .zstd => some "zstd".toList

/-- Manifest response after encoding selection: body size and the value of
the Content-Encoding header, if emitted. -/
structure EncodedResponse where
  body_size : Nat
  content_encoding : Option (List Char)
deriving DecidableEq, Repr

/-- The manifest send path of `tsc_lws_cb`: pick the encoding with
`negotiate_enc`, set `session.data` to the corresponding buffer, and emit
Content-Encoding iff the choice is not `none`. -/
def manifest_encoded_response (accept : List Char) (buf : HttpBuf) :
    EncodedResponse :=
  let enc := negotiate_enc accept buf
  ⟨enc_size buf enc, enc_header enc⟩

/-! ## Theorems for the arithmetic and decision claims -/

/-- Claim C4: for every MRC cache insertion at wall-clock unix time `t`, the
scheduled eviction time `e = ((t + 60) / 300) * 300 + 240` satisfies
`0 < e - t ≤ 300` and `e mod 300 = 240`. -/
theorem mrc_ttl_bound (t : Nat) :
    t < mrc_eviction_time t ∧ mrc_eviction_time t - t ≤ 300 ∧
      mrc_eviction_time t % 300 = 240 := by
  unfold mrc_eviction_time
  omega

/-- Claim C6: while the server is running, the response to a manifest GET is
304 with no body iff the If-Modified-Since header parsed and its time is at
least the catalog timestamp; otherwise (earlier header time, missing or
unparseable header) it is 200 with the body. -/
theorem manifest_conditional_get (running : Bool) (hdr_time : Option Int)
    (ts : Int) (h : running = true) :
    (manifest_route_result running hdr_time ts = ⟨304, false⟩ ↔
      ∃ t, hdr_time = some t ∧ ts ≤ t) ∧
    (manifest_route_result running hdr_time ts = ⟨304, false⟩ ∨
      manifest_route_result running hdr_time ts = ⟨200, true⟩) := by
  subst h
  unfold manifest_route_result manifest_cond_get
  constructor
  · cases hdr_time with
    | none => simp
    | some t =>
      by_cases hle : ts ≤ t
      · simp [hle]
      · simp [hle]
  · cases hdr_time with
    | none => simp
    | some t =>
      by_cases hle : ts ≤ t
      · simp [hle]
      · simp [hle]

/-- Claim C6 witness. -/
theorem manifest_conditional_get_witness :
    (manifest_route_result true (some 100) 50 = ⟨304, false⟩ ↔
      ∃ t, (some (100 : Int)) = some t ∧ (50 : Int) ≤ t) ∧
    (manifest_route_result true (some 100) 50 = ⟨304, false⟩ ∨
      manifest_route_result true (some 100) 50 = ⟨200, true⟩) :=
  manifest_conditional_get true (some 100) 50 rfl

/-- Claim C10: a cached entry is served without contacting Steam CM only when
its stored request code is nonzero; an entry whose code is 0 is treated as a
cache miss (the handler takes the fetch path). -/
theorem zero_mrc_not_served (cache : List (Nat × MrcEntry)) (mid : Nat) :
    (∀ m, mrc_handler_path cache mid = .serve m →
      ∃ e, mrc_lookup cache mid = some e ∧ e.mrc = m ∧ m ≠ 0) ∧
    (∀ e, mrc_lookup cache mid = some e → e.mrc = 0 →
      mrc_handler_path cache mid = .fetch) := by
  constructor
  · intro m hm
    unfold mrc_handler_path at hm
    simp only [cached_mrc] at hm
    cases hfind : mrc_lookup cache mid with
    | none =>
      rw [hfind] at hm
      simp at hm
    | some e =>
      rw [hfind] at hm
      by_cases hz : e.mrc = 0
      · simp [hz] at hm
      · simp [hz] at hm
        exact ⟨e, rfl, hm, by rw [hm] at hz; exact hz⟩
  · intro e he hz
    unfold mrc_handler_path
    simp only [cached_mrc, he, hz]
    rfl

/-- Claim C10 witness. -/
theorem zero_mrc_not_served_witness :
    mrc_handler_path [((7 : Nat), ⟨7, 0, 0⟩)] 7 = .fetch :=
  (zero_mrc_not_served [((7 : Nat), ⟨7, 0, 0⟩)] 7).2 ⟨7, 0, 0⟩ rfl rfl

lemma length_mrcs_emplace (cache : List (Nat × MrcEntry)) (mid : Nat)
    (e : MrcEntry) :
    (mrcs_emplace cache mid e).length ≤ cache.length + 1 := by
  induction cache with
  | nil => simp [mrcs_emplace]
  | cons hd tl ih =>
    obtain ⟨k, v⟩ := hd
    simp only [mrcs_emplace]
    split_ifs with h1 h2
    · simp only [List.length_cons]
      omega
    · simp only [List.length_cons]
      omega
    · simp only [List.length_cons] at ih ⊢
      omega

/-- Claim C5: the MRC cache never exceeds 128 entries; an insertion
attempted with 128 entries present first erases the cache's first entry in
key order (the smallest manifest ID), cancelling that entry's eviction
timer, and then emplaces the new entry. -/
theorem mrc_cache_bound (cache : List (Nat × MrcEntry)) (mid : Nat)
    (e : MrcEntry) (hsort : cache.Pairwise (fun a b => a.1 < b.1))
    (hlen : cache.length ≤ 128) :
    (mrc_cache_insert cache mid e).1.length ≤ 128 ∧
    (cache.length = 128 →
      ∃ first rest, cache = first :: rest ∧
        (mrc_cache_insert cache mid e).2 = some first ∧
        (∀ p ∈ cache, first.1 ≤ p.1) ∧
        (mrc_cache_insert cache mid e).1 = mrcs_emplace rest mid e) ∧
    (cache.length < 128 → (mrc_cache_insert cache mid e).2 = none) := by
  cases cache with
  | nil =>
    refine ⟨by simp [mrc_cache_insert, mrcs_emplace], ?_, ?_⟩
    · intro h128
      simp at h128
    · intro _
      rfl
  | cons first rest =>
    by_cases hge : 128 ≤ (first :: rest).length
    · have hins : mrc_cache_insert (first :: rest) mid e =
          (mrcs_emplace rest mid e, some first) := by
        simp only [mrc_cache_insert]
        rw [if_pos hge]
      have h1 : (mrc_cache_insert (first :: rest) mid e).1 =
          mrcs_emplace rest mid e := by rw [hins]
      have h2 : (mrc_cache_insert (first :: rest) mid e).2 = some first := by
        rw [hins]
      refine ⟨?_, ?_, ?_⟩
      · rw [h1]
        have := length_mrcs_emplace rest mid e
        simp only [List.length_cons] at hlen
        omega
      · intro _
        refine ⟨first, rest, rfl, h2, ?_, h1⟩
        intro p hp
        rcases List.mem_cons.mp hp with h | h
        · subst h
          exact le_refl _
        · exact le_of_lt ((List.pairwise_cons.mp hsort).1 p h)
      · intro hlt
        simp only [List.length_cons] at hge hlt
        omega
    · have hins : mrc_cache_insert (first :: rest) mid e =
          (mrcs_emplace (first :: rest) mid e, none) := by
        simp only [mrc_cache_insert]
        rw [if_neg hge]
      have h1 : (mrc_cache_insert (first :: rest) mid e).1 =
          mrcs_emplace (first :: rest) mid e := by rw [hins]
      refine ⟨?_, ?_, ?_⟩
      · rw [h1]
        have := length_mrcs_emplace (first :: rest) mid e
        simp only [List.length_cons] at hge
        simp only [List.length_cons] at this ⊢
        omega
      · intro h128
        rw [h128] at hge
        omega
      · intro _
        rw [hins]

/-- Claim C5 witness. -/
theorem mrc_cache_bound_witness :
    ([((5 : Nat), ⟨5, 7, 0⟩), (9, ⟨9, 3, 0⟩)] :
        List (Nat × MrcEntry)).Pairwise (fun a b => a.1 < b.1) ∧
    ([((5 : Nat), ⟨5, 7, 0⟩), (9, ⟨9, 3, 0⟩)] :
        List (Nat × MrcEntry)).length ≤ 128 ∧
    (mrc_cache_insert [((5 : Nat), ⟨5, 7, 0⟩), (9, ⟨9, 3, 0⟩)] 7
        ⟨7, 1, 0⟩).1.length ≤ 128 :=
  ⟨by decide, by decide,
    (mrc_cache_bound [((5 : Nat), ⟨5, 7, 0⟩), (9, ⟨9, 3, 0⟩)] 7 ⟨7, 1, 0⟩
      (by decide) (by decide)).1⟩

/-- Invariant carried through the candidate steps of `negotiate_enc`:
`Done` is the set of codecs already considered, `cur` the running choice. -/
def enc_inv (accept : List Char) (buf : HttpBuf) (Done : EncType → Prop)
    (cur : EncType × Nat) : Prop :=
  cur.2 ≤ buf.buf_size ∧
  ((cur.1 = EncType.none ∧ cur.2 = buf.buf_size ∧
      ∀ c, Done c → ¬ enc_qualifies accept buf c) ∨
    (enc_qualifies accept buf cur.1 ∧ enc_size buf cur.1 = cur.2 ∧
      ∀ c, Done c → enc_qualifies accept buf c →
        cur.2 ≤ enc_size buf c))

lemma enc_step_inv (accept : List Char) (buf : HttpBuf)
    (Done : EncType → Prop) (cand : EncType) (c : CompBuf)
    (name : List Char) (cur : EncType × Nat)
    (hq : enc_qualifies accept buf cand ↔
      (c.present = true ∧ contains_sub accept name = true ∧
        c.size < buf.buf_size))
    (hsz : enc_size buf cand = c.size)
    (hinv : enc_inv accept buf Done cur) :
    enc_inv accept buf (fun x => Done x ∨ x = cand)
      (enc_step cand c name accept cur) := by
  unfold enc_step
  by_cases hcond : c.present = true ∧ contains_sub accept name = true ∧
      c.size < cur.2
  · rw [if_pos hcond]
    refine ⟨le_trans (le_of_lt hcond.2.2) hinv.1, Or.inr ⟨?_, hsz, ?_⟩⟩
    · rw [hq]
      exact ⟨hcond.1, hcond.2.1, lt_of_lt_of_le hcond.2.2 hinv.1⟩
    · intro x hx hqx
      cases hx with
      | inl hdone =>
        rcases hinv.2 with ⟨_, _, hnone⟩ | ⟨_, _, hmin⟩
        · exact absurd hqx (hnone x hdone)
        · exact le_trans (le_of_lt hcond.2.2) (hmin x hdone hqx)
      | inr heq =>
        subst heq
        rw [hsz]
  · rw [if_neg hcond]
    refine ⟨hinv.1, ?_⟩
    rcases hinv.2 with ⟨h1, h2, h3⟩ | ⟨h1, h2, h3⟩
    · left
      refine ⟨h1, h2, ?_⟩
      intro x hx hqx
      cases hx with
      | inl hd => exact h3 x hd hqx
      | inr he =>
        subst he
        rw [hq] at hqx
        exact hcond ⟨hqx.1, hqx.2.1, by rw [h2]; exact hqx.2.2⟩
    · right
      refine ⟨h1, h2, ?_⟩
      intro x hx hqx
      cases hx with
      | inl hd => exact h3 x hd hqx
      | inr he =>
        subst he
        rw [hq] at hqx
        rw [hsz]
        by_contra hlt
        push_neg at hlt
        exact hcond ⟨hqx.1, hqx.2.1, hlt⟩

lemma negotiate_enc_spec (accept : List Char) (buf : HttpBuf) :
    (negotiate_enc accept buf = .none ∧
      ∀ c, ¬ enc_qualifies accept buf c) ∨
    (enc_qualifies accept buf (negotiate_enc accept buf) ∧
      ∀ c2, enc_qualifies accept buf c2 →
        enc_size buf (negotiate_enc accept buf) ≤ enc_size buf c2) := by
  by_cases hemp : accept.isEmpty
  · left
    have hacc : accept = [] := List.isEmpty_iff.mp hemp
    subst hacc
    refine ⟨by simp [negotiate_enc], ?_⟩
    intro c hqc
    cases c with
    | «none» => exact hqc
    | deflate => exact absurd hqc.2.1 (by decide)
    | brotli => exact absurd hqc.2.1 (by decide)
    | zstd => exact absurd hqc.2.1 (by decide)
  · have hinv0 : enc_inv accept buf (fun _ => False)
        (EncType.none, buf.buf_size) :=
      ⟨le_refl _, Or.inl ⟨rfl, rfl, fun x hx => absurd hx not_false⟩⟩
    have hinv1 := enc_step_inv accept buf _ EncType.deflate buf.deflate
      "deflate".toList _ Iff.rfl rfl hinv0
    have hinv2 := enc_step_inv accept buf _ EncType.brotli buf.brotli
      "br".toList _ Iff.rfl rfl hinv1
    have hinv3 := enc_step_inv accept buf _ EncType.zstd buf.zstd
      "zstd".toList _ Iff.rfl rfl hinv2
    have hne : negotiate_enc accept buf =
        (enc_step .zstd buf.zstd "zstd".toList accept
          (enc_step .brotli buf.brotli "br".toList accept
            (enc_step .deflate buf.deflate "deflate".toList accept
              (.none, buf.buf_size)))).1 := by
      simp [negotiate_enc, hemp]
    rcases hinv3.2 with ⟨h1, _, h3⟩ | ⟨h1, h2, h3⟩
    · left
      refine ⟨by rw [hne]; exact h1, ?_⟩
      intro c hqc
      cases c with
      | «none» => exact hqc
      | deflate => exact h3 _ (Or.inl (Or.inl (Or.inr rfl))) hqc
      | brotli => exact h3 _ (Or.inl (Or.inr rfl)) hqc
      | zstd => exact h3 _ (Or.inr rfl) hqc
    · right
      rw [hne]
      refine ⟨h1, ?_⟩
      intro c2 hq2
      rw [h2]
      cases c2 with
      | «none» => exact absurd hq2 id
      | deflate => exact h3 _ (Or.inl (Or.inl (Or.inr rfl))) hq2
      | brotli => exact h3 _ (Or.inl (Or.inr rfl)) hq2
      | zstd => exact h3 _ (Or.inr rfl) hq2

/-- Claim C7: among the codecs whose name occurs in the Accept-Encoding
header, whose buffer is present and whose compressed size is strictly
smaller than the uncompressed size, the server picks one of minimal
compressed size; when no codec qualifies (in particular for an empty or
identity-only header) the uncompressed body is sent without a
Content-Encoding header, and otherwise the chosen codec's name is emitted in
Content-Encoding. -/
theorem encoding_negotiation (accept : List Char) (buf : HttpBuf) :
    (negotiate_enc accept buf = .none ↔
      ∀ c, ¬ enc_qualifies accept buf c) ∧
    (∀ c, negotiate_enc accept buf = c → c ≠ .none →
      enc_qualifies accept buf c ∧
        ∀ c2, enc_qualifies accept buf c2 →
          enc_size buf c ≤ enc_size buf c2) ∧
    manifest_encoded_response accept buf =
      ⟨enc_size buf (negotiate_enc accept buf),
        enc_header (negotiate_enc accept buf)⟩ := by
  refine ⟨⟨?_, ?_⟩, ?_, rfl⟩
  · intro hnone
    rcases negotiate_enc_spec accept buf with ⟨_, hnq⟩ | ⟨hq, _⟩
    · exact hnq
    · rw [hnone] at hq
      exact absurd hq id
  · intro hnq
    rcases negotiate_enc_spec accept buf with ⟨h, _⟩ | ⟨hq, _⟩
    · exact h
    · exact absurd hq (hnq _)
  · intro c hc hne
    rcases negotiate_enc_spec accept buf with ⟨h, _⟩ | ⟨hq, hmin⟩
    · rw [hc] at h
      exact absurd h hne
    · rw [hc] at hq hmin
      exact ⟨hq, hmin⟩

/-- Claim C7 witness. -/
theorem encoding_negotiation_witness :
    enc_qualifies "deflate".toList ⟨100, ⟨true, 50⟩, ⟨true, 10⟩, ⟨true, 10⟩⟩
      EncType.deflate :=
  ((encoding_negotiation "deflate".toList
      ⟨100, ⟨true, 50⟩, ⟨true, 10⟩, ⟨true, 10⟩⟩).2.1 EncType.deflate
    (by decide) (by decide)).1

/-! ## Depot decryption key harvest policy (cm_callbacks.cpp, cb_depot_key)

`cb_depot_key` inspects `data_dk.result`.  The error branch is entered only
when the result is a failure AND its type is not `steam_cm` AND its
auxiliary code is not `TEK_SC_CM_ERESULT_blocked`; inside it, a
`sub`/`cm_timeout` result re-sends the same request with a 3000 ms timeout
and anything else disconnects the CM client.  A successful result moves the
32-byte key into `state.depot_keys` and marks the manifest dirty. -/

/-- tek-steamclient error type (`TEK_SC_ERR_TYPE_*` values used here). -/
inductive ErrType where
  | basic
  | sub
  | steam_cm
deriving DecidableEq, Repr

/-- Auxiliary code of a tek-steamclient error: `TEK_SC_ERRC_*` sub-error
codes and `TEK_SC_CM_ERESULT_*` Steam CM result codes. -/
inductive CmAux where
  | blocked
  | cm_timeout
  | access_denied
  | invalid_signature
  | service_unavailable
  | missing_token
  | access_token_denied
  | other (n : Nat)
deriving DecidableEq, Repr

/-- A tek-steamclient result: its type, whether `tek_sc_err_success` holds,
and the auxiliary code. -/
structure TekErr where
  type : ErrType
  success : Bool
  auxiliary : CmAux
deriving DecidableEq, Repr

/-- Action taken by `cb_depot_key` on a depot key response. -/
inductive DkAction where
  | resend (timeout_ms : Nat)
  | disconnect
  | store_key
  | ignore
deriving DecidableEq, Repr

/-- The decision logic of `cb_depot_key`: a failure that is neither of the
`steam_cm` type nor has auxiliary `blocked` is re-sent with a 3-second
timeout when it is a `sub`/`cm_timeout`, and disconnects the client
otherwise; a success stores the key; all remaining failures fall through to
the burst bookkeeping (silently ignored). -/
def cb_depot_key_action (e : TekErr) : DkAction :=
  if e.success = false ∧ e.type ≠ ErrType.steam_cm ∧
      e.auxiliary ≠ CmAux.blocked then
    if e.type = ErrType.sub ∧ e.auxiliary = CmAux.cm_timeout
    then .resend 3000
    else .disconnect
  else if e.success then .store_key
  else .ignore

/-- A 32-byte AES-256 depot decryption key. -/
def Aes256Key : Type := {l : List Nat // l.length = 32}

/-- `state.depot_keys[depot_id] = key` (insert-or-assign) as performed on a
successful depot key response. -/
def store_depot_key (keys : List (Nat × Aes256Key)) (depot_id : Nat)
    (key : Aes256Key) : List (Nat × Aes256Key) :=
  match keys with
  | [] => [(depot_id, key)]
  | (k, v) :: rest =>
    if k = depot_id then (k, key) :: rest
    else (k, v) :: store_depot_key rest depot_id key

/-- Lookup in the depot key map. -/
def depot_key_lookup (keys : List (Nat × Aes256Key)) (depot_id : Nat) :
    Option Aes256Key :=
  match keys with
  | [] => Option.none
  | (k, v) :: rest => if k = depot_id then some v
      else depot_key_lookup rest depot_id

/-- State effect of `cb_depot_key` on `(state.depot_keys,
state.manifest_dirty)`: only a success stores the key and marks the
manifest dirty. -/
def cb_depot_key_update (e : TekErr) (keys : List (Nat × Aes256Key))
    (dirty : Bool) (depot_id : Nat) (key : Aes256Key) :
    List (Nat × Aes256Key) × Bool :=
  if e.success then (store_depot_key keys depot_id key, true)
  else (keys, dirty)

lemma depot_key_lookup_store (keys : List (Nat × Aes256Key)) (depot_id : Nat)
    (key : Aes256Key) :
    depot_key_lookup (store_depot_key keys depot_id key) depot_id =
      some key := by
  induction keys with
  | nil => simp [store_depot_key, depot_key_lookup]
  | cons hd tl ih =>
    obtain ⟨k, v⟩ := hd
    simp only [store_depot_key]
    by_cases hk : k = depot_id
    · simp [hk, depot_key_lookup]
    · simp [hk, depot_key_lookup, ih]

/-- Claim C2 counterexample: a non-timeout failure of the `steam_cm` type
whose auxiliary code is `access_denied` (neither `blocked` nor a timeout)
does not cause a disconnect — `cb_depot_key` ignores it silently, because
its error branch requires the type to differ from `steam_cm`. -/
theorem depot_key_policy_counterexample :
    (TekErr.mk ErrType.steam_cm false CmAux.access_denied).success = false ∧
    (TekErr.mk ErrType.steam_cm false CmAux.access_denied).auxiliary ≠
      CmAux.blocked ∧
    ¬((TekErr.mk ErrType.steam_cm false CmAux.access_denied).type =
        ErrType.sub ∧
      (TekErr.mk ErrType.steam_cm false
          CmAux.access_denied).auxiliary = CmAux.cm_timeout) ∧
    cb_depot_key_action (TekErr.mk ErrType.steam_cm false
      CmAux.access_denied) ≠ DkAction.disconnect := by
  refine ⟨rfl, by decide, by decide, by decide⟩

/-- Claim C2 (amended): a `sub`/`cm_timeout` failure is re-sent with a
3-second timeout; a failure whose type is `steam_cm` or whose auxiliary is
`blocked` is ignored silently; every other non-timeout failure disconnects
the CM client; a success stores the 32-byte key under the depot ID and
marks the manifest dirty. -/
theorem depot_key_error_policy (e : TekErr) (keys : List (Nat × Aes256Key))
    (dirty : Bool) (depot_id : Nat) (key : Aes256Key) :
    (e.success = false → e.type = ErrType.sub →
      e.auxiliary = CmAux.cm_timeout →
      cb_depot_key_action e = .resend 3000) ∧
    (e.success = false →
      (e.type = ErrType.steam_cm ∨ e.auxiliary = CmAux.blocked) →
      cb_depot_key_action e = .ignore) ∧
    (e.success = false → e.type ≠ ErrType.steam_cm →
      e.auxiliary ≠ CmAux.blocked →
      ¬(e.type = ErrType.sub ∧ e.auxiliary = CmAux.cm_timeout) →
      cb_depot_key_action e = .disconnect) ∧
    (e.success = true → cb_depot_key_action e = .store_key ∧
      depot_key_lookup (cb_depot_key_update e keys dirty depot_id key).1
          depot_id = some key ∧
      (cb_depot_key_update e keys dirty depot_id key).2 = true) := by
  obtain ⟨ty, su, au⟩ := e
  refine ⟨?_, ?_, ?_, ?_⟩
  · intro hsu hty hau
    simp only at hsu hty hau
    subst hsu
    subst hty
    subst hau
    rfl
  · intro hsu hor
    simp only at hsu
    subst hsu
    unfold cb_depot_key_action
    rcases hor with hty | hau
    · simp only at hty
      subst hty
      simp
    · simp only at hau
      subst hau
      simp
  · intro hsu hty hau hnt
    simp only at hsu hty hau hnt
    subst hsu
    unfold cb_depot_key_action
    rw [if_pos ⟨rfl, hty, hau⟩, if_neg hnt]
  · intro hsu
    simp only at hsu
    subst hsu
    refine ⟨rfl, ?_, rfl⟩
    simp only [cb_depot_key_update, if_pos]
    exact depot_key_lookup_store keys depot_id key

/-- Claim C2 witness. -/
theorem depot_key_error_policy_witness :
    cb_depot_key_action (TekErr.mk ErrType.sub false CmAux.cm_timeout) =
      .resend 3000 ∧
    cb_depot_key_action (TekErr.mk ErrType.steam_cm false CmAux.blocked) =
      .ignore ∧
    cb_depot_key_action (TekErr.mk ErrType.basic false
      (CmAux.other 3)) = .disconnect ∧
    cb_depot_key_action (TekErr.mk ErrType.basic true (CmAux.other 0)) =
      .store_key :=
  ⟨(depot_key_error_policy (TekErr.mk ErrType.sub false CmAux.cm_timeout)
      [] false 0 ⟨List.replicate 32 0, by decide⟩).1 rfl rfl rfl,
   (depot_key_error_policy (TekErr.mk ErrType.steam_cm false CmAux.blocked)
      [] false 0 ⟨List.replicate 32 0, by decide⟩).2.1 rfl (Or.inl rfl),
   (depot_key_error_policy (TekErr.mk ErrType.basic false (CmAux.other 3))
      [] false 0 ⟨List.replicate 32 0, by decide⟩).2.2.1 rfl (by decide)
      (by decide) (by decide),
   ((depot_key_error_policy (TekErr.mk ErrType.basic true (CmAux.other 0))
      [] false 0 ⟨List.replicate 32 0, by decide⟩).2.2.2 rfl).1⟩

/-! ## Token validity at load (state.cpp, ts3_init, lines 155-181) and
account serialization (manifest.cpp, update_manifest, lines 234-240)

For each string of the state file's `accounts` array, `ts3_init` parses it
with `tek_sc_cm_parse_auth_token`; a zero Steam ID or `expires < now` skips
the token with a stderr message, otherwise `try_emplace` adds an account
keyed by the Steam ID.  `update_manifest` serializes the tokens of the
accounts whose `rem_status` is `none`. -/

/-- `tek_sc_cm_auth_token_info`: data parsed from an auth token. -/
structure TokenInfo where
  steam_id : Nat
  renewable : Bool
  expires : Int
deriving DecidableEq, Repr

/-- `remove_status` of an account. -/
inductive RemoveStatus where
  | none
  | pending_remove
  | remove
deriving DecidableEq, Repr

/-- An account as loaded into `state.accounts`. -/
structure LoadedAccount where
  token : String
  token_info : TokenInfo
  rem_status : RemoveStatus
deriving DecidableEq, Repr

/-- The validity test applied to a token at load: nonzero Steam ID and not
expired. -/
def token_load_ok (info : TokenInfo) (now : Int) : Bool :=
  if info.steam_id = 0 then false
  else if info.expires < now then false
  else true

/-- Key membership in the account map (`std::map` keyed by Steam ID). -/
def acc_map_contains (accs : List (Nat × LoadedAccount)) (id : Nat) : Bool :=
  match accs with
  | [] => false
  | (k, _) :: rest => if k = id then true else acc_map_contains rest id

/-- Processing of one token of the state file's `accounts` array in
`ts3_init`: skip on zero Steam ID, skip on expiry, `try_emplace` keyed by
Steam ID otherwise. -/
def load_account_step (parse : String → TokenInfo) (now : Int)
    (accs : List (Nat × LoadedAccount)) (token : String) :
    List (Nat × LoadedAccount) :=
  if (parse token).steam_id = 0 then accs
  else if (parse token).expires < now then accs
  else if acc_map_contains accs (parse token).steam_id then accs
  else accs ++
    [((parse token).steam_id, ⟨token, parse token, RemoveStatus.none⟩)]

/-- Account loading loop of `ts3_init` over the state file's tokens. -/
def load_accounts (parse : String → TokenInfo) (now : Int)
    (tokens : List String) : List (Nat × LoadedAccount) :=
  tokens.foldl (load_account_step parse now) []

/-- The stderr message `ts3_init` prints when a token is skipped. -/
def load_token_log (parse : String → TokenInfo) (now : Int)
    (token : String) : Option (List Char) :=
  if (parse token).steam_id = 0 then
    some ("Auth token \"".toList ++ token.toList ++
      "\" is invalid; skipping it".toList)
  else if (parse token).expires < now then
    some ("Auth token for account ".toList ++
      (toString (parse token).steam_id).toList ++
      " has expired; skipping it".toList)
  else Option.none

/-- The `accounts` array written on a dirty state rewrite
(`update_manifest`): tokens of the accounts not marked for removal. -/
def serialize_accounts (accs : List (Nat × LoadedAccount)) : List String :=
  (accs.filter (fun p => decide (p.2.rem_status = RemoveStatus.none))).map
    (fun p => p.2.token)

/-- What holds of every entry `ts3_init` puts into `state.accounts`. -/
def acc_entry_ok (parse : String → TokenInfo) (now : Int)
    (p : Nat × LoadedAccount) : Prop :=
  token_load_ok (parse p.2.token) now = true ∧
    p.1 = (parse p.2.token).steam_id ∧
    p.2.token_info = parse p.2.token ∧
    p.2.rem_status = RemoveStatus.none

lemma load_account_step_sound (parse : String → TokenInfo) (now : Int)
    (accs : List (Nat × LoadedAccount)) (token : String)
    (h : ∀ p ∈ accs, acc_entry_ok parse now p) :
    ∀ p ∈ load_account_step parse now accs token, acc_entry_ok parse now p := by
  intro p hp
  unfold load_account_step at hp
  by_cases h0 : (parse token).steam_id = 0
  · simp only [h0, if_true] at hp
    exact h p hp
  · simp only [h0, if_false] at hp
    by_cases h1 : (parse token).expires < now
    · simp only [h1, if_true] at hp
      exact h p hp
    · simp only [h1, if_false] at hp
      by_cases h2 : acc_map_contains accs (parse token).steam_id = true
      · simp only [h2, if_true] at hp
        exact h p hp
      · simp only [h2, if_false] at hp
        rcases List.mem_append.mp hp with hm | hm
        · exact h p hm
        · rcases List.mem_singleton.mp hm with rfl
          exact ⟨by simp [token_load_ok, h0, h1], rfl, rfl, rfl⟩

lemma load_accounts_fold_sound (parse : String → TokenInfo) (now : Int)
    (tokens : List String) :
    ∀ accs, (∀ p ∈ accs, acc_entry_ok parse now p) →
      ∀ p ∈ tokens.foldl (load_account_step parse now) accs,
        acc_entry_ok parse now p := by
  induction tokens with
  | nil =>
    intro accs h p hp
    exact h p hp
  | cons t rest ih =>
    intro accs h p hp
    exact ih (load_account_step parse now accs t)
      (load_account_step_sound parse now accs t h) p hp

lemma mem_load_fold_of_mem (parse : String → TokenInfo) (now : Int)
    (tokens : List String) :
    ∀ accs p, p ∈ accs →
      p ∈ tokens.foldl (load_account_step parse now) accs := by
  induction tokens with
  | nil =>
    intro accs p hp
    exact hp
  | cons t rest ih =>
    intro accs p hp
    apply ih
    unfold load_account_step
    split_ifs <;> first | exact hp | exact List.mem_append_left _ hp

lemma acc_map_contains_append (accs : List (Nat × LoadedAccount))
    (q : Nat × LoadedAccount) (id : Nat) :
    acc_map_contains (accs ++ [q]) id =
      (acc_map_contains accs id || decide (q.1 = id)) := by
  induction accs with
  | nil =>
    by_cases h : q.1 = id <;> simp [acc_map_contains, h]
  | cons hd tl ih =>
    obtain ⟨k, v⟩ := hd
    simp only [List.cons_append, acc_map_contains]
    by_cases h : k = id <;> simp [h, ih]

/-- IDs of the tokens that pass the load validity check, in order. -/
def valid_token_ids (parse : String → TokenInfo) (now : Int) :
    List String → List Nat
  | [] => []
  | t :: rest =>
    if token_load_ok (parse t) now = true
    then (parse t).steam_id :: valid_token_ids parse now rest
    else valid_token_ids parse now rest

lemma mem_valid_token_ids (parse : String → TokenInfo) (now : Int)
    (tokens : List String) (s : String) (hs : s ∈ tokens)
    (hok : token_load_ok (parse s) now = true) :
    (parse s).steam_id ∈ valid_token_ids parse now tokens := by
  induction tokens with
  | nil => exact absurd hs (List.not_mem_nil s)
  | cons t rest ih =>
    rcases List.mem_cons.mp hs with rfl | hsr
    · simp only [valid_token_ids, hok, if_true]
      exact List.mem_cons_self _ _
    · simp only [valid_token_ids]
      by_cases h : token_load_ok (parse t) now = true
      · simp only [h, if_true]
        exact List.mem_cons_of_mem _ (ih hsr)
      · simp only [h, if_false]
        exact ih hsr

lemma load_accounts_fold_complete (parse : String → TokenInfo) (now : Int) :
    ∀ (tokens : List String) (accs : List (Nat × LoadedAccount)),
      (valid_token_ids parse now tokens).Nodup →
      (∀ s ∈ tokens, token_load_ok (parse s) now = true →
        acc_map_contains accs (parse s).steam_id = false) →
      ∀ t ∈ tokens, token_load_ok (parse t) now = true →
        ∃ a, ((parse t).steam_id, a) ∈
            tokens.foldl (load_account_step parse now) accs ∧
          a.token = t := by
  intro tokens
  induction tokens with
  | nil =>
    intro accs _ _ t ht
    exact absurd ht (List.not_mem_nil t)
  | cons t0 rest ih =>
    intro accs hnd hdisj t ht hok
    have h0 : (parse t0).steam_id = 0 ∨ (parse t0).steam_id ≠ 0 := by
      by_cases h : (parse t0).steam_id = 0
      · exact Or.inl h
      · exact Or.inr h
    rcases List.mem_cons.mp ht with rfl | htr
    · -- the head token is valid: it is inserted and survives the fold
      have hne : (parse t).steam_id ≠ 0 := by
        intro hz
        simp [token_load_ok, hz] at hok
      have hexp : ¬ (parse t).expires < now := by
        intro hlt
        simp [token_load_ok, hne, hlt] at hok
      have hcon : acc_map_contains accs (parse t).steam_id = false :=
        hdisj t (List.mem_cons_self t rest) hok
      have hstep : load_account_step parse now accs t =
          accs ++ [((parse t).steam_id, ⟨t, parse t, RemoveStatus.none⟩)] := by
        unfold load_account_step
        rw [if_neg hne, if_neg hexp, hcon]
        simp
      refine ⟨⟨t, parse t, RemoveStatus.none⟩, ?_, rfl⟩
      simp only [List.foldl_cons, hstep]
      exact mem_load_fold_of_mem parse now rest _ _
        (List.mem_append_right _ (List.mem_singleton.mpr rfl))
    · -- the token is in the tail: apply the induction hypothesis
      have hvt0 : valid_token_ids parse now (t0 :: rest) =
          if token_load_ok (parse t0) now = true
          then (parse t0).steam_id :: valid_token_ids parse now rest
          else valid_token_ids parse now rest := rfl
      have hndr : (valid_token_ids parse now rest).Nodup := by
        rw [hvt0] at hnd
        by_cases h : token_load_ok (parse t0) now = true
        · rw [if_pos h] at hnd
          exact hnd.of_cons
        · rw [if_neg h] at hnd
          exact hnd
      apply ih (load_account_step parse now accs t0) hndr _ t htr hok
      intro s hs hoks
      unfold load_account_step
      by_cases hz : (parse t0).steam_id = 0
      · simp only [hz, if_true]
        exact hdisj s (List.mem_cons_of_mem t0 hs) hoks
      · simp only [hz, if_false]
        by_cases hexp : (parse t0).expires < now
        · simp only [hexp, if_true]
          exact hdisj s (List.mem_cons_of_mem t0 hs) hoks
        · simp only [hexp, if_false]
          by_cases hcon : acc_map_contains accs (parse t0).steam_id = true
          · simp only [hcon, if_true]
            exact hdisj s (List.mem_cons_of_mem t0 hs) hoks
          · rw [if_neg hcon]
            rw [acc_map_contains_append]
            have hda := hdisj s (List.mem_cons_of_mem t0 hs) hoks
            rw [hda]
            simp only [Bool.false_or]
            -- the freshly inserted ID differs from s's ID by `Nodup`
            have hok0 : token_load_ok (parse t0) now = true := by
              unfold token_load_ok
              simp [hz, hexp]
            rw [hvt0, if_pos hok0] at hnd
            have hmem : (parse s).steam_id ∈ valid_token_ids parse now rest :=
              mem_valid_token_ids parse now rest s hs hoks
            have hne0 : (parse t0).steam_id ≠ (parse s).steam_id := by
              intro heq
              rw [heq] at hnd
              exact (List.nodup_cons.mp hnd).1 hmem
            simp [hne0]

/-- Claim C9 counterexample: the claim's "created iff valid" fails as
stated, because `state.accounts.try_emplace` is keyed by Steam ID — for a
state file holding two distinct unexpired tokens that parse to the same
Steam ID, the second token passes the validity check and yet no account
holding it is created (the first token's account occupies the key). -/
theorem token_validity_counterexample :
    token_load_ok ((fun _ : String => TokenInfo.mk 5 true 100) "b") 0 =
      true ∧
    "b" ∈ ["a", "b"] ∧
    ¬ ∃ a : LoadedAccount,
        (((fun _ : String => TokenInfo.mk 5 true 100) "b").steam_id, a) ∈
          load_accounts (fun _ : String => TokenInfo.mk 5 true 100) 0
            ["a", "b"] ∧
        a.token = "b" := by
  refine ⟨rfl, by decide, ?_⟩
  rintro ⟨a, hmem, htok⟩
  have hl : load_accounts (fun _ : String => TokenInfo.mk 5 true 100) 0
      ["a", "b"] =
      [(5, ⟨"a", TokenInfo.mk 5 true 100, RemoveStatus.none⟩)] := by
    rfl
  rw [hl] at hmem
  have hsing := List.mem_singleton.mp hmem
  injection hsing with h1 h2
  subst h2
  exact absurd htok (by decide)

/-- Claim C9 (amended): at startup, for a state file in which the valid
(nonzero-ID, unexpired) tokens parse to pairwise distinct Steam IDs — as is
always the case for state files the program itself writes, since the
serialized accounts come from a map keyed by Steam ID — an account is
created for a token iff the token parses to a nonzero Steam ID and its
expiry is not earlier than the current time; an expired token is skipped
with a stderr message containing "expired; skipping"; and a token that
fails the validity check is absent from the accounts array written on the
next dirty rewrite, because only loaded accounts are serialized. -/
theorem token_validity_at_load (parse : String → TokenInfo) (now : Int)
    (tokens : List String) (t : String)
    (hnd : (valid_token_ids parse now tokens).Nodup) (ht : t ∈ tokens) :
    ((∃ a, ((parse t).steam_id, a) ∈ load_accounts parse now tokens ∧
        a.token = t) ↔ token_load_ok (parse t) now = true) ∧
    ((parse t).steam_id ≠ 0 → (parse t).expires < now →
      ∃ msg, load_token_log parse now t = some msg ∧
        contains_sub msg "expired; skipping".toList = true) ∧
    (token_load_ok (parse t) now = false →
      t ∉ serialize_accounts (load_accounts parse now tokens)) := by
  refine ⟨⟨?_, ?_⟩, ?_, ?_⟩
  · rintro ⟨a, hmem, htok⟩
    have hok := load_accounts_fold_sound parse now tokens []
      (by intro p hp; exact absurd hp (List.not_mem_nil p)) _ hmem
    rw [← htok]
    exact hok.1
  · intro hok
    exact load_accounts_fold_complete parse now tokens [] hnd
      (by intro s _ _; rfl) t ht hok
  · intro hne hexp
    refine ⟨"Auth token for account ".toList ++
      (toString (parse t).steam_id).toList ++
      " has expired; skipping it".toList, ?_, ?_⟩
    · unfold load_token_log
      simp [hne, hexp]
    · unfold contains_sub
      rw [decide_eq_true_eq]
      have hsub : "expired; skipping".toList <:+:
          " has expired; skipping it".toList := by decide
      have hsuf : " has expired; skipping it".toList <:+:
          ("Auth token for account ".toList ++
            (toString (parse t).steam_id).toList ++
            " has expired; skipping it".toList) :=
        (List.suffix_append _ _).isInfix
      exact hsub.trans hsuf
  · intro hbad hmem
    unfold serialize_accounts at hmem
    rcases List.mem_map.mp hmem with ⟨p, hp, htok⟩
    have hpm := List.mem_filter.mp hp
    have hok := load_accounts_fold_sound parse now tokens []
      (by intro q hq; exact absurd hq (List.not_mem_nil q)) _ hpm.1
    have h1 : token_load_ok (parse p.2.token) now = true := hok.1
    rw [htok] at h1
    exact Bool.noConfusion (h1.symm.trans hbad)

/-- Claim C9 witness. -/
theorem token_validity_at_load_witness :
    ∃ msg, load_token_log (fun s => ⟨s.length, true, 10⟩) 1000 "abc" =
        some msg ∧
      contains_sub msg "expired; skipping".toList = true :=
  (token_validity_at_load (fun s => ⟨s.length, true, 10⟩) 1000 ["abc"] "abc"
    (by decide) (List.mem_singleton.mpr rfl)).2.1 (by decide) (by decide)

/-! ## Catalog model (state.hpp: depot, app; mutations in cm_callbacks.cpp
cb_app_info lines 296-322, cb_signed_in lines 566-584, and server.cpp
tsc_lws_cb lines 440-443)

Accounts are referenced by pointer in the source (`std::vector<account *>`);
they are modelled by stable numeric identities.  `next_acc` is an iterator
into `accs`, modelled as an index; `accs.cbegin()` is index 0. -/

/-- Steam depot entry: owning accounts and the round-robin cursor. -/
structure Depot where
  accs : List Nat
  next_acc : Nat
deriving DecidableEq, Repr

/-- Steam application entry. -/
structure SteamApp where
  name : String
  depots : List (Nat × Depot)
deriving DecidableEq, Repr

/-- The invariant claimed for every depot: nonempty account list and a
cursor that is a valid position (never the end iterator). -/
def depot_ok (d : Depot) : Prop :=
  d.accs ≠ [] ∧ d.next_acc < d.accs.length

instance (d : Depot) : Decidable (depot_ok d) := by
  unfold depot_ok
  infer_instance

/-- Catalog consistency: every depot of every app satisfies `depot_ok`. -/
def catalog_ok (apps : List (Nat × SteamApp)) : Prop :=
  ∀ p ∈ apps, ∀ q ∈ p.2.depots, depot_ok q.2

instance (apps : List (Nat × SteamApp)) : Decidable (catalog_ok apps) := by
  unfold catalog_ok
  infer_instance

/-- Admission of one account into one depot in `cb_app_info`: if the account
is not yet in `accs` it is appended and `next_acc` is reset to `begin`
(the source guard is `emplaced || !contains`, and a freshly emplaced depot
has an empty `accs`, so the test reduces to containment). -/
def depot_add_acc (d : Depot) (acc : Nat) : Depot :=
  if d.accs.contains acc then d
  else { accs := d.accs ++ [acc], next_acc := 0 }

/-- `app_ent.depots.try_emplace(depot_id)` followed by the admission above:
a missing depot is created empty first. -/
def depots_add_acc (depots : List (Nat × Depot)) (depot_id acc : Nat) :
    List (Nat × Depot) :=
  match depots with
  | [] => [(depot_id, depot_add_acc ⟨[], 0⟩ acc)]
  | (k, d) :: rest =>
    if k = depot_id then (k, depot_add_acc d acc) :: rest
    else (k, d) :: depots_add_acc rest depot_id acc

/-- The app-level admission in `cb_app_info`: set the app's name and admit
the account into each collected depot ID. -/
def app_add_depots (a : SteamApp) (name : String) (depot_ids : List Nat)
    (acc : Nat) : SteamApp :=
  { name := name,
    depots := depot_ids.foldl (fun ds id => depots_add_acc ds id acc) a.depots }

/-- `state.apps.try_emplace(app.id)` followed by the app-level admission:
the complete catalog mutation the PICS app-info handler performs for one
app under the catalog mutex. -/
def apps_add_depots (apps : List (Nat × SteamApp)) (app_id : Nat) (name : String)
    (depot_ids : List Nat) (acc : Nat) : List (Nat × SteamApp) :=
  match apps with
  | [] => [(app_id, app_add_depots ⟨"", []⟩ name depot_ids acc)]
  | (k, a) :: rest =>
    if k = app_id then (k, app_add_depots a name depot_ids acc) :: rest
    else (k, a) :: apps_add_depots rest app_id name depot_ids acc

/-- Removal of an invalidated account from one depot in `cb_signed_in`:
`std::erase` drops every occurrence, and a nonzero erase count resets
`next_acc` to `begin`. -/
def depot_remove_acc (d : Depot) (acc : Nat) : Depot :=
  if d.accs.contains acc
  then { accs := d.accs.filter (fun a => a ≠ acc), next_acc := 0 }
  else d

/-- The complete catalog mutation `cb_signed_in` performs on invalidation:
remove the account from every depot, erase depots left with an empty
account list, then erase apps left with no depots. -/
def catalog_remove_acc (apps : List (Nat × SteamApp)) (acc : Nat) :
    List (Nat × SteamApp) :=
  ((apps.map (fun p => (p.1,
      SteamApp.mk p.2.name
        (((p.2.depots.map (fun q => (q.1, depot_remove_acc q.2 acc)))).filter
          (fun q => !q.2.accs.isEmpty))))).filter
    (fun p => !p.2.depots.isEmpty))

/-- Cursor rotation of the `/mrc` dispatcher: advance `next_acc`, wrapping
to `begin` when it reaches the end iterator. -/
def depot_rotate (d : Depot) : Depot :=
  { d with next_acc :=
      if d.next_acc + 1 = d.accs.length then 0 else d.next_acc + 1 }

/-- The account selected by the `/mrc` dispatcher: `*next_acc`, read before
the rotation. -/
def depot_select (d : Depot) : Nat :=
  d.accs.getD d.next_acc 0

/-- The rotation as performed on the catalog: the depot found under
`(app_id, depot_id)` has its cursor advanced; nothing else changes. -/
def catalog_rotate (apps : List (Nat × SteamApp)) (app_id depot_id : Nat) :
    List (Nat × SteamApp) :=
  apps.map (fun p =>
    if p.1 = app_id then
      (p.1, SteamApp.mk p.2.name (p.2.depots.map (fun q =>
        if q.1 = depot_id then (q.1, depot_rotate q.2) else q)))
    else p)

lemma depot_add_acc_ok (d : Depot) (acc : Nat) (h : depot_ok d ∨ d.accs = []) :
    depot_ok (depot_add_acc d acc) := by
  unfold depot_add_acc
  by_cases hc : d.accs.contains acc
  · rw [if_pos hc]
    rcases h with h | h
    · exact h
    · rw [h] at hc
      simp [List.contains] at hc
  · rw [if_neg hc]
    refine ⟨by simp, ?_⟩
    simp

lemma depots_add_acc_ok (depots : List (Nat × Depot)) (depot_id acc : Nat)
    (h : ∀ q ∈ depots, depot_ok q.2) :
    ∀ q ∈ depots_add_acc depots depot_id acc, depot_ok q.2 := by
  induction depots with
  | nil =>
    intro q hq
    simp only [depots_add_acc] at hq
    rcases List.mem_singleton.mp hq with rfl
    exact depot_add_acc_ok _ _ (Or.inr rfl)
  | cons hd tl ih =>
    obtain ⟨k, d⟩ := hd
    intro q hq
    simp only [depots_add_acc] at hq
    by_cases hk : k = depot_id
    · rw [if_pos hk] at hq
      rcases List.mem_cons.mp hq with rfl | hq2
      · exact depot_add_acc_ok d acc
          (Or.inl (h (k, d) (List.mem_cons_self _ _) ))
      · exact h q (List.mem_cons_of_mem _ hq2)
    · rw [if_neg hk] at hq
      rcases List.mem_cons.mp hq with rfl | hq2
      · exact h (k, d) (List.mem_cons_self _ _)
      · exact ih (fun r hr => h r (List.mem_cons_of_mem _ hr)) _ hq2

lemma depots_add_acc_fold_ok (ids : List Nat) (acc : Nat) :
    ∀ depots, (∀ q ∈ depots, depot_ok q.2) →
      ∀ q ∈ ids.foldl (fun ds id => depots_add_acc ds id acc) depots,
        depot_ok q.2 := by
  induction ids with
  | nil =>
    intro depots h q hq
    exact h q hq
  | cons id rest ih =>
    intro depots h q hq
    exact ih (depots_add_acc depots id acc)
      (depots_add_acc_ok depots id acc h) q hq

lemma app_add_depots_ok (a : SteamApp) (name : String) (ids : List Nat)
    (acc : Nat) (h : ∀ q ∈ a.depots, depot_ok q.2) :
    ∀ q ∈ (app_add_depots a name ids acc).depots, depot_ok q.2 := by
  unfold app_add_depots
  exact depots_add_acc_fold_ok ids acc a.depots h

lemma apps_add_depots_ok (apps : List (Nat × SteamApp)) (app_id : Nat)
    (name : String) (ids : List Nat) (acc : Nat) (h : catalog_ok apps) :
    catalog_ok (apps_add_depots apps app_id name ids acc) := by
  induction apps with
  | nil =>
    intro p hp
    simp only [apps_add_depots] at hp
    rcases List.mem_singleton.mp hp with rfl
    exact app_add_depots_ok _ name ids acc (by intro q hq; cases hq)
  | cons hd tl ih =>
    obtain ⟨k, a⟩ := hd
    intro p hp
    simp only [apps_add_depots] at hp
    by_cases hk : k = app_id
    · rw [if_pos hk] at hp
      rcases List.mem_cons.mp hp with rfl | hp2
      · exact app_add_depots_ok a name ids acc
          (h (k, a) (List.mem_cons_self _ _))
      · exact h p (List.mem_cons_of_mem _ hp2)
    · rw [if_neg hk] at hp
      rcases List.mem_cons.mp hp with rfl | hp2
      · exact h (k, a) (List.mem_cons_self _ _)
      · exact ih (fun r hr q hq => h r (List.mem_cons_of_mem _ hr) q hq) _ hp2

lemma catalog_remove_acc_ok (apps : List (Nat × SteamApp)) (acc : Nat)
    (h : catalog_ok apps) : catalog_ok (catalog_remove_acc apps acc) := by
  intro p hp q hq
  unfold catalog_remove_acc at hp
  have hp2 := (List.mem_filter.mp hp).1
  rcases List.mem_map.mp hp2 with ⟨p0, hp0, rfl⟩
  dsimp only at hq
  have hq2 := List.mem_filter.mp hq
  rcases List.mem_map.mp hq2.1 with ⟨q0, hq0, rfl⟩
  have hok0 : depot_ok q0.2 := h p0 hp0 q0 hq0
  have hne : (depot_remove_acc q0.2 acc).accs ≠ [] := by
    have h3 := hq2.2
    dsimp only at h3
    simp only [Bool.not_eq_true'] at h3
    intro hnil
    rw [hnil] at h3
    exact Bool.noConfusion h3
  dsimp only
  unfold depot_remove_acc at hne ⊢
  by_cases hc : q0.2.accs.contains acc = true
  · rw [if_pos hc] at hne ⊢
    exact ⟨hne, List.length_pos.mpr hne⟩
  · rw [if_neg hc] at hne ⊢
    exact hok0

lemma depot_rotate_ok (d : Depot) (h : depot_ok d) :
    depot_ok (depot_rotate d) := by
  obtain ⟨h1, h2⟩ := h
  unfold depot_rotate
  refine ⟨h1, ?_⟩
  dsimp only
  by_cases he : d.next_acc + 1 = d.accs.length
  · rw [if_pos he]
    omega
  · rw [if_neg he]
    omega

lemma catalog_rotate_ok (apps : List (Nat × SteamApp))
    (app_id depot_id : Nat) (h : catalog_ok apps) :
    catalog_ok (catalog_rotate apps app_id depot_id) := by
  intro p hp q hq
  unfold catalog_rotate at hp
  rcases List.mem_map.mp hp with ⟨p0, hp0, rfl⟩
  by_cases ha : p0.1 = app_id
  · rw [if_pos ha] at hq
    dsimp only at hq
    rcases List.mem_map.mp hq with ⟨q0, hq0, rfl⟩
    by_cases hd : q0.1 = depot_id
    · rw [if_pos hd]
      exact depot_rotate_ok q0.2 (h p0 hp0 q0 hq0)
    · rw [if_neg hd]
      exact h p0 hp0 q0 hq0
  · rw [if_neg ha] at hq
    exact h p0 hp0 q hq

/-- Claim C1: each of the three complete catalog mutations performed under
the catalog mutex — admitting a depot for an account in the PICS app-info
handler, removing an invalidated account (with removal of emptied depots
and apps), and rotating the round-robin cursor in the `/mrc` dispatcher —
preserves the invariant that every depot's `accs` list is non-empty and its
`next_acc` cursor is a valid position into `accs`. -/
theorem catalog_consistency (apps : List (Nat × SteamApp))
    (app_id depot_id acc : Nat) (name : String) (depot_ids : List Nat)
    (h : catalog_ok apps) :
    catalog_ok (apps_add_depots apps app_id name depot_ids acc) ∧
    catalog_ok (catalog_remove_acc apps acc) ∧
    catalog_ok (catalog_rotate apps app_id depot_id) :=
  ⟨apps_add_depots_ok apps app_id name depot_ids acc h,
   catalog_remove_acc_ok apps acc h,
   catalog_rotate_ok apps app_id depot_id h⟩

/-- Claim C1 witness. -/
theorem catalog_consistency_witness :
    catalog_ok (apps_add_depots
      [((440 : Nat), ⟨"tf", [(441, ⟨[1, 2], 1⟩)]⟩)] 440 "tf" [441, 442] 3) ∧
    catalog_ok (catalog_remove_acc
      [((440 : Nat), ⟨"tf", [(441, ⟨[1, 2], 1⟩)]⟩)] 3) ∧
    catalog_ok (catalog_rotate
      [((440 : Nat), ⟨"tf", [(441, ⟨[1, 2], 1⟩)]⟩)] 440 441) :=
  catalog_consistency [((440 : Nat), ⟨"tf", [(441, ⟨[1, 2], 1⟩)]⟩)]
    440 441 3 "tf" [441, 442] (by decide)

/-! ## Round-robin fairness (server.cpp, tsc_lws_cb, /mrc path) -/

/-- A `/mrc` request outcome as it affects the depot's cursor: a cache miss
selects and rotates, a cache hit leaves the depot untouched. -/
inductive MrcEvent where
  | miss
  | hit
deriving DecidableEq, Repr

/-- Effect of one `/mrc` request on the depot. -/
def depot_step (d : Depot) : MrcEvent → Depot
  | .miss => depot_rotate d
  | .hit => d

/-- Accounts selected over a sequence of `/mrc` requests: each miss selects
`*next_acc` and advances the cursor; hits select from the cache and do not
touch the depot. -/
def mrc_selections (d : Depot) : List MrcEvent → List Nat
  | [] => []
  | .hit :: es => mrc_selections d es
  | .miss :: es => depot_select d :: mrc_selections (depot_rotate d) es

/-- Number of cache misses in an event sequence. -/
def count_misses : List MrcEvent → Nat
  | [] => 0
  | .miss :: es => count_misses es + 1
  | .hit :: es => count_misses es

lemma depot_rotate_next (d : Depot) (h : depot_ok d) :
    (depot_rotate d).next_acc = (d.next_acc + 1) % d.accs.length := by
  unfold depot_rotate
  dsimp only
  by_cases he : d.next_acc + 1 = d.accs.length
  · rw [if_pos he, he, Nat.mod_self]
  · rw [if_neg he]
    have := h.2
    rw [Nat.mod_eq_of_lt (by omega)]

lemma mrc_selections_formula (events : List MrcEvent) :
    ∀ d, depot_ok d →
      mrc_selections d events =
        (List.range (count_misses events)).map
          (fun k => d.accs.getD ((d.next_acc + k) % d.accs.length) 0) := by
  induction events with
  | nil =>
    intro d _
    simp [mrc_selections, count_misses]
  | cons e rest ih =>
    intro d hd
    cases e with
    | hit => exact ih d hd
    | miss =>
      simp only [mrc_selections, count_misses]
      rw [List.range_succ_eq_map, List.map_cons, List.map_map]
      congr 1
      · unfold depot_select
        rw [Nat.add_zero, Nat.mod_eq_of_lt hd.2]
      · rw [ih (depot_rotate d) (depot_rotate_ok d hd)]
        apply List.map_congr_left
        intro k _
        have hacc : (depot_rotate d).accs = d.accs := rfl
        rw [hacc, depot_rotate_next d hd]
        simp only [Function.comp]
        rw [Nat.mod_add_mod]
        congr 2
        omega

/-- Claim C3: on each `/mrc` cache miss the handler selects the account the
cursor points to and advances the cursor by one, wrapping at the end of the
list, so the accounts selected over any event sequence are
`accs[(next_acc + k) mod accs.len]` for the k-th miss — the round-robin
sequence `a, b, c, a, b, c, …` for `accs = [a, b, c]` — and cache hits
leave the depot (and hence the sequence) unchanged. -/
theorem round_robin_fairness (d : Depot) (events : List MrcEvent)
    (h : depot_ok d) :
    mrc_selections d events =
      (List.range (count_misses events)).map
        (fun k => d.accs.getD ((d.next_acc + k) % d.accs.length) 0) ∧
    depot_step d .hit = d ∧
    depot_step d .miss = depot_rotate d :=
  ⟨mrc_selections_formula events d h, rfl, rfl⟩

/-- Claim C3 witness: for `accs = [a, b, c]` and four misses with an
intervening hit, the selections are `a, b, c, a`. -/
theorem round_robin_fairness_witness :
    mrc_selections ⟨[10, 20, 30], 0⟩
        [.miss, .hit, .miss, .miss, .hit, .miss] =
      (List.range (count_misses
          [.miss, .hit, .miss, .miss, .hit, .miss])).map
        (fun k => [10, 20, 30].getD ((0 + k) % 3) 0) :=
  (round_robin_fairness ⟨[10, 20, 30], 0⟩
    [.miss, .hit, .miss, .miss, .hit, .miss] (by decide)).1

/-! ## Binary VDF decoder (cm_callbacks.cpp, bin_vdf_node, lines 67-105)

The constructor consumes bytes from `cur` to `end`.  In each loop
iteration it reads a tag byte; `0x08` ends the node; otherwise it scans a
null-terminated name — reaching `end` without a null returns with `cur`
still after the tag byte.  Tag `0x00` recursively parses a child node,
`0x01` scans a null-terminated string value (returning at `end` with `cur`
after the name), `0x02` reads a 4-byte little-endian int32 (returning if
fewer than 4 bytes remain), and any other tag returns.  Attribute and
child maps are `unordered_map::emplace`, modelled as journal lists (first
occurrence wins on lookup). -/

/-- Scan for the terminating null byte: `std::ranges::find(cur, end, 0)`
followed by `cur = nullt + 1`.  Returns the bytes before the null and the
bytes after it, or `none` when no null remains before `end`. -/
def split_null : List Nat → Option (List Nat × List Nat)
  | [] => Option.none
  | b :: rest =>
    if b = 0 then some ([], rest)
    else
      match split_null rest with
      | Option.none => Option.none
      | some (n, r) => some (b :: n, r)

lemma split_null_suffix :
    ∀ (l n r : List Nat), split_null l = some (n, r) →
      r <:+ l ∧ r.length < l.length := by
  intro l
  induction l with
  | nil =>
    intro n r h
    exact Option.noConfusion h
  | cons b rest ih =>
    intro n r h
    simp only [split_null] at h
    by_cases hb : b = 0
    · rw [if_pos hb] at h
      obtain ⟨rfl, rfl⟩ := Prod.mk.injEq .. ▸ (Option.some.injEq .. ▸ h)
      exact ⟨List.suffix_cons b rest, by simp⟩
    · rw [if_neg hb] at h
      cases hrec : split_null rest with
      | none =>
        rw [hrec] at h
        exact Option.noConfusion h
      | some p =>
        obtain ⟨n2, r2⟩ := p
        rw [hrec] at h
        obtain ⟨_, rfl⟩ := Prod.mk.injEq .. ▸ (Option.some.injEq .. ▸ h)
        obtain ⟨hsuf, hlen⟩ := ih n2 r2 hrec
        exact ⟨hsuf.trans (List.suffix_cons b rest), by
          simp only [List.length_cons]
          omega⟩

/-- `memcpy` of four little-endian bytes into `std::int32_t`. -/
def int32_le (b0 b1 b2 b3 : Nat) : Int :=
  let u := b0 + 256 * (b1 + 256 * (b2 + 256 * b3))
  if u < 2 ^ 31 then (u : Int) else (u : Int) - 2 ^ 32

/-- Binary VDF node: integer attributes, string attributes and child nodes,
all keyed by byte-string names. -/
inductive BinVdfNode where
  | mk (int_attrs : List (List Nat × Int))
       (str_attrs : List (List Nat × List Nat))
       (children : List (List Nat × BinVdfNode))

/-- Integer attributes of a node. -/
def BinVdfNode.int_attrs : BinVdfNode → List (List Nat × Int)
  | .mk i _ _ => i

/-- String attributes of a node. -/
def BinVdfNode.str_attrs : BinVdfNode → List (List Nat × List Nat)
  | .mk _ s _ => s

/-- Child nodes of a node. -/
def BinVdfNode.children : BinVdfNode → List (List Nat × BinVdfNode)
  | .mk _ _ c => c

lemma suffix_cons4 (b0 b1 b2 b3 : Nat) (r : List Nat) :
    r <:+ b0 :: b1 :: b2 :: b3 :: r :=
  ⟨[b0, b1, b2, b3], rfl⟩

/-- The `bin_vdf_node` constructor loop: parse bytes into the node whose
accumulated attributes are `ints`, `strs` and `childs`, and return the node
together with the unconsumed remainder (the final position of `cur`), which
is always a suffix of the input — the decoder never reads outside the
slice. -/
def bin_vdf_parse (input : List Nat) (ints : List (List Nat × Int))
    (strs : List (List Nat × List Nat))
    (childs : List (List Nat × BinVdfNode)) :
    BinVdfNode × {r : List Nat // r <:+ input} :=
  match input with
  | [] => (.mk ints strs childs, ⟨[], List.nil_suffix⟩)
  | b :: rest =>
    if b = 8 then (.mk ints strs childs, ⟨rest, List.suffix_cons b rest⟩)
    else
      match hsn : split_null rest with
      | Option.none =>
        (.mk ints strs childs, ⟨rest, List.suffix_cons b rest⟩)
      | some (name, r1) =>
        if b = 0 then
          match bin_vdf_parse r1 [] [] [] with
          | (child, ⟨rc, hrc⟩) =>
            match bin_vdf_parse rc ints strs (childs ++ [(name, child)]) with
            | (node, ⟨rr, hrr⟩) =>
              (node, ⟨rr, hrr.trans (hrc.trans
                ((split_null_suffix rest name _ hsn).1.trans
                  (List.suffix_cons b rest)))⟩)
        else if b = 1 then
          match hsn2 : split_null r1 with
          | Option.none =>
            (.mk ints strs childs, ⟨r1,
              (split_null_suffix rest name _ hsn).1.trans
                (List.suffix_cons b rest)⟩)
          | some (v, r2) =>
            match bin_vdf_parse r2 ints (strs ++ [(name, v)]) childs with
            | (node, ⟨rr, hrr⟩) =>
              (node, ⟨rr,
                hrr.trans
                  ((split_null_suffix _ v r2 hsn2).1.trans
                    ((split_null_suffix rest name _ hsn).1.trans
                      (List.suffix_cons b rest)))⟩)
        else if b = 2 then
          match r1, hsn with
          | b0 :: b1 :: b2 :: b3 :: r2, hsn4 =>
            match bin_vdf_parse r2
                (ints ++ [(name, int32_le b0 b1 b2 b3)]) strs childs with
            | (node, ⟨rr, hrr⟩) =>
              (node, ⟨rr,
                hrr.trans
                  ((suffix_cons4 b0 b1 b2 b3 r2).trans
                    ((split_null_suffix rest name _ hsn4).1.trans
                      (List.suffix_cons b rest)))⟩)
          | r1x, hsnx =>
            (.mk ints strs childs, ⟨r1x,
              (split_null_suffix rest name _ hsnx).1.trans
                (List.suffix_cons b rest)⟩)
        else
          (.mk ints strs childs, ⟨r1,
            (split_null_suffix rest name _ hsn).1.trans
              (List.suffix_cons b rest)⟩)
termination_by input.length
decreasing_by
  · have h1 := (split_null_suffix rest name _ hsn).2
    simp only [List.length_cons]
    omega
  · have h1 := (split_null_suffix rest name _ hsn).2
    have h2 := hrc.length_le
    simp only [List.length_cons]
    omega
  · have h1 := (split_null_suffix rest name _ hsn).2
    have h2 := (split_null_suffix _ v r2 hsn2).2
    simp only [List.length_cons]
    omega
  · have h1 := (split_null_suffix rest name _ hsn4).2
    simp only [List.length_cons] at h1 ⊢
    omega

/-- The decoder's entry point: parse one node from a byte slice, returning
the node and the final cursor position. -/
def bin_vdf_node (input : List Nat) : BinVdfNode × List Nat :=
  ((bin_vdf_parse input [] [] []).1, (bin_vdf_parse input [] [] []).2.val)

lemma bvp_end_eq (rest : List Nat) (i : List (List Nat × Int))
    (s : List (List Nat × List Nat)) (c : List (List Nat × BinVdfNode)) :
    (bin_vdf_parse (8 :: rest) i s c).1 = .mk i s c ∧
    (bin_vdf_parse (8 :: rest) i s c).2.val = rest := by
  constructor <;> simp [bin_vdf_parse]

lemma bvp_name_trunc_eq (b : Nat) (hb : b ≠ 8) (rest : List Nat)
    (hsn : split_null rest = Option.none) (i : List (List Nat × Int))
    (s : List (List Nat × List Nat)) (c : List (List Nat × BinVdfNode)) :
    (bin_vdf_parse (b :: rest) i s c).1 = .mk i s c ∧
    (bin_vdf_parse (b :: rest) i s c).2.val = rest := by
  constructor <;>
  · simp only [bin_vdf_parse]
    rw [if_neg hb]
    split
    · rfl
    · rename_i n1 t1 heq
      simp [hsn] at heq

lemma bvp_unknown_eq (b : Nat) (hb8 : b ≠ 8) (hb0 : b ≠ 0) (hb1 : b ≠ 1)
    (hb2 : b ≠ 2) (rest name r1 : List Nat)
    (hsn : split_null rest = some (name, r1)) (i : List (List Nat × Int))
    (s : List (List Nat × List Nat)) (c : List (List Nat × BinVdfNode)) :
    (bin_vdf_parse (b :: rest) i s c).1 = .mk i s c ∧
    (bin_vdf_parse (b :: rest) i s c).2.val = r1 := by
  constructor <;>
  · simp only [bin_vdf_parse]
    rw [if_neg hb8]
    split
    · rename_i heq
      simp [hsn] at heq
    · rename_i n1 t1 heq
      rw [hsn] at heq
      injection heq with heq2
      injection heq2 with hn hr
      subst hn
      subst hr
      rw [if_neg hb0, if_neg hb1, if_neg hb2]

lemma bvp_child_eq (rest name r1 : List Nat)
    (hsn : split_null rest = some (name, r1)) (i : List (List Nat × Int))
    (s : List (List Nat × List Nat)) (c : List (List Nat × BinVdfNode)) :
    (bin_vdf_parse (0 :: rest) i s c).1 =
      (bin_vdf_parse (bin_vdf_parse r1 [] [] []).2.val i s
        (c ++ [(name, (bin_vdf_parse r1 [] [] []).1)])).1 ∧
    (bin_vdf_parse (0 :: rest) i s c).2.val =
      (bin_vdf_parse (bin_vdf_parse r1 [] [] []).2.val i s
        (c ++ [(name, (bin_vdf_parse r1 [] [] []).1)])).2.val := by
  constructor <;>
  · simp only [bin_vdf_parse]
    rw [if_neg (by decide : ¬ (0 : Nat) = 8)]
    split
    · rename_i heq
      rw [hsn] at heq
      cases heq
    · rename_i n1 t1 heq
      rw [hsn] at heq
      injection heq with heq2
      injection heq2 with hn hr
      subst hn
      subst hr
      simp

lemma bvp_str_eq (rest name r1 v r2 : List Nat)
    (hsn : split_null rest = some (name, r1))
    (hsn2 : split_null r1 = some (v, r2)) (i : List (List Nat × Int))
    (s : List (List Nat × List Nat)) (c : List (List Nat × BinVdfNode)) :
    (bin_vdf_parse (1 :: rest) i s c).1 =
      (bin_vdf_parse r2 i (s ++ [(name, v)]) c).1 ∧
    (bin_vdf_parse (1 :: rest) i s c).2.val =
      (bin_vdf_parse r2 i (s ++ [(name, v)]) c).2.val := by
  constructor <;>
  · simp only [bin_vdf_parse]
    rw [if_neg (by decide : ¬ (1 : Nat) = 8)]
    split
    · rename_i heq
      simp [hsn] at heq
    · rename_i n1 t1 heq
      rw [hsn] at heq
      injection heq with heq2
      injection heq2 with hn hr
      subst hn
      subst hr
      split
      · rename_i h10
        exact absurd h10 (by decide)
      · simp only [if_true]
        split
        · rename_i heq3
          simp [hsn2] at heq3
        · rename_i v1 t2 heq3
          rw [hsn2] at heq3
          injection heq3 with heq4
          injection heq4 with hv ht
          subst hv
          subst ht
          rfl

lemma bvp_str_trunc_eq (rest name r1 : List Nat)
    (hsn : split_null rest = some (name, r1))
    (hsn2 : split_null r1 = Option.none) (i : List (List Nat × Int))
    (s : List (List Nat × List Nat)) (c : List (List Nat × BinVdfNode)) :
    (bin_vdf_parse (1 :: rest) i s c).1 = .mk i s c ∧
    (bin_vdf_parse (1 :: rest) i s c).2.val = r1 := by
  constructor <;>
  · simp only [bin_vdf_parse]
    rw [if_neg (by decide : ¬ (1 : Nat) = 8)]
    split
    · rename_i heq
      simp [hsn] at heq
    · rename_i n1 t1 heq
      rw [hsn] at heq
      injection heq with heq2
      injection heq2 with hn hr
      subst hn
      subst hr
      split
      · rename_i h10
        exact absurd h10 (by decide)
      · simp only [if_true]
        split
        · rfl
        · rename_i v1 t2 heq3
          simp [hsn2] at heq3

lemma bvp_int_eq (rest name : List Nat) (b0 b1 b2 b3 : Nat)
    (r2 : List Nat)
    (hsn : split_null rest = some (name, b0 :: b1 :: b2 :: b3 :: r2))
    (i : List (List Nat × Int)) (s : List (List Nat × List Nat))
    (c : List (List Nat × BinVdfNode)) :
    (bin_vdf_parse (2 :: rest) i s c).1 =
      (bin_vdf_parse r2 (i ++ [(name, int32_le b0 b1 b2 b3)]) s c).1 ∧
    (bin_vdf_parse (2 :: rest) i s c).2.val =
      (bin_vdf_parse r2 (i ++ [(name, int32_le b0 b1 b2 b3)]) s c).2.val := by
  constructor <;>
  · simp only [bin_vdf_parse]
    rw [if_neg (by decide : ¬ (2 : Nat) = 8)]
    split
    · rename_i heq
      simp [hsn] at heq
    · rename_i n1 t1 heq
      rw [hsn] at heq
      injection heq with heq2
      injection heq2 with hn hr
      subst hn
      subst hr
      split
      · rename_i h20
        exact absurd h20 (by decide)
      · split
        · rename_i h21
          exact absurd h21 (by decide)
        · simp only [if_true]

lemma bvp_int_trunc_eq (rest name r1 : List Nat)
    (hsn : split_null rest = some (name, r1)) (hlen : r1.length < 4)
    (i : List (List Nat × Int)) (s : List (List Nat × List Nat))
    (c : List (List Nat × BinVdfNode)) :
    (bin_vdf_parse (2 :: rest) i s c).1 = .mk i s c ∧
    (bin_vdf_parse (2 :: rest) i s c).2.val = r1 := by
  constructor <;>
  · simp only [bin_vdf_parse]
    rw [if_neg (by decide : ¬ (2 : Nat) = 8)]
    split
    · rename_i heq
      simp [hsn] at heq
    · rename_i n1 t1 heq
      rw [hsn] at heq
      injection heq with heq2
      injection heq2 with hn hr
      subst hn
      subst hr
      split
      · rename_i h20
        exact absurd h20 (by decide)
      · split
        · rename_i h21
          exact absurd h21 (by decide)
        · simp only [if_true]
          rcases r1 with _ | ⟨x0, _ | ⟨x1, _ | ⟨x2, _ | ⟨x3, t⟩⟩⟩⟩
          · rfl
          · rfl
          · rfl
          · rfl
          · simp only [List.length_cons] at hlen
            omega

/-- Claim C8: the binary VDF decoder is total and never reads outside the
input slice (the final cursor is always a suffix of the input); tag 0x08
ends the current node; tags 0x00, 0x01, 0x02 parse a named child node, a
null-terminated string attribute and a 4-byte little-endian int32 attribute
respectively; any other tag terminates the node; and on truncation — a
name with no terminating null, a string value with no terminating null, or
fewer than 4 bytes for an int32 — parsing stops and the node keeps exactly
the attributes and children accumulated so far. -/
theorem bin_vdf_decoder_safety :
    (∀ input : List Nat, (bin_vdf_node input).2 <:+ input) ∧
    (∀ (rest : List Nat) (i : List (List Nat × Int))
        (s : List (List Nat × List Nat)) (c : List (List Nat × BinVdfNode)),
      (bin_vdf_parse (8 :: rest) i s c).1 = .mk i s c ∧
      (bin_vdf_parse (8 :: rest) i s c).2.val = rest) ∧
    (∀ (b : Nat), b ≠ 8 → ∀ (rest : List Nat),
      split_null rest = Option.none →
      ∀ (i : List (List Nat × Int)) (s : List (List Nat × List Nat))
        (c : List (List Nat × BinVdfNode)),
      (bin_vdf_parse (b :: rest) i s c).1 = .mk i s c ∧
      (bin_vdf_parse (b :: rest) i s c).2.val = rest) ∧
    (∀ (rest name r1 : List Nat), split_null rest = some (name, r1) →
      ∀ (i : List (List Nat × Int)) (s : List (List Nat × List Nat))
        (c : List (List Nat × BinVdfNode)),
      (bin_vdf_parse (0 :: rest) i s c).1 =
        (bin_vdf_parse (bin_vdf_parse r1 [] [] []).2.val i s
          (c ++ [(name, (bin_vdf_parse r1 [] [] []).1)])).1) ∧
    (∀ (rest name r1 v r2 : List Nat), split_null rest = some (name, r1) →
      split_null r1 = some (v, r2) →
      ∀ (i : List (List Nat × Int)) (s : List (List Nat × List Nat))
        (c : List (List Nat × BinVdfNode)),
      (bin_vdf_parse (1 :: rest) i s c).1 =
        (bin_vdf_parse r2 i (s ++ [(name, v)]) c).1) ∧
    (∀ (rest name r1 : List Nat), split_null rest = some (name, r1) →
      split_null r1 = Option.none →
      ∀ (i : List (List Nat × Int)) (s : List (List Nat × List Nat))
        (c : List (List Nat × BinVdfNode)),
      (bin_vdf_parse (1 :: rest) i s c).1 = .mk i s c ∧
      (bin_vdf_parse (1 :: rest) i s c).2.val = r1) ∧
    (∀ (rest name : List Nat) (b0 b1 b2 b3 : Nat) (r2 : List Nat),
      split_null rest = some (name, b0 :: b1 :: b2 :: b3 :: r2) →
      ∀ (i : List (List Nat × Int)) (s : List (List Nat × List Nat))
        (c : List (List Nat × BinVdfNode)),
      (bin_vdf_parse (2 :: rest) i s c).1 =
        (bin_vdf_parse r2 (i ++ [(name, int32_le b0 b1 b2 b3)]) s c).1) ∧
    (∀ (rest name r1 : List Nat), split_null rest = some (name, r1) →
      r1.length < 4 →
      ∀ (i : List (List Nat × Int)) (s : List (List Nat × List Nat))
        (c : List (List Nat × BinVdfNode)),
      (bin_vdf_parse (2 :: rest) i s c).1 = .mk i s c ∧
      (bin_vdf_parse (2 :: rest) i s c).2.val = r1) ∧
    (∀ (b : Nat), b ≠ 8 → b ≠ 0 → b ≠ 1 → b ≠ 2 →
      ∀ (rest name r1 : List Nat), split_null rest = some (name, r1) →
      ∀ (i : List (List Nat × Int)) (s : List (List Nat × List Nat))
        (c : List (List Nat × BinVdfNode)),
      (bin_vdf_parse (b :: rest) i s c).1 = .mk i s c ∧
      (bin_vdf_parse (b :: rest) i s c).2.val = r1) :=
  ⟨fun input => (bin_vdf_parse input [] [] []).2.property,
   bvp_end_eq,
   fun b hb rest hsn i s c => bvp_name_trunc_eq b hb rest hsn i s c,
   fun rest name r1 hsn i s c => (bvp_child_eq rest name r1 hsn i s c).1,
   fun rest name r1 v r2 hsn hsn2 i s c =>
     (bvp_str_eq rest name r1 v r2 hsn hsn2 i s c).1,
   fun rest name r1 hsn hsn2 i s c =>
     bvp_str_trunc_eq rest name r1 hsn hsn2 i s c,
   fun rest name b0 b1 b2 b3 r2 hsn i s c =>
     (bvp_int_eq rest name b0 b1 b2 b3 r2 hsn i s c).1,
   fun rest name r1 hsn hlen i s c =>
     bvp_int_trunc_eq rest name r1 hsn hlen i s c,
   fun b hb8 hb0 hb1 hb2 rest name r1 hsn i s c =>
     bvp_unknown_eq b hb8 hb0 hb1 hb2 rest name r1 hsn i s c⟩

/-- Claim C8 witness: concrete instances of the hypothesis-bearing parts —
a truncated name, a string attribute, a truncated string value, an int32
attribute, a truncated int32, and an unknown tag. -/
theorem bin_vdf_decoder_safety_witness :
    ((bin_vdf_parse [5, 65] [] [] []).1 = .mk [] [] [] ∧
      (bin_vdf_parse [5, 65] [] [] []).2.val = [65]) ∧
    (bin_vdf_parse [1, 65, 0, 66, 0] [] [] []).1 =
      (bin_vdf_parse [] [] ([] ++ [([65], [66])]) []).1 ∧
    ((bin_vdf_parse [1, 65, 0, 66] [] [] []).1 = .mk [] [] [] ∧
      (bin_vdf_parse [1, 65, 0, 66] [] [] []).2.val = [66]) ∧
    (bin_vdf_parse [2, 65, 0, 1, 0, 0, 0] [] [] []).1 =
      (bin_vdf_parse [] ([] ++ [([65], int32_le 1 0 0 0)]) [] []).1 ∧
    ((bin_vdf_parse [2, 65, 0, 1, 0] [] [] []).1 = .mk [] [] [] ∧
      (bin_vdf_parse [2, 65, 0, 1, 0] [] [] []).2.val = [1, 0]) ∧
    ((bin_vdf_parse [9, 65, 0] [] [] []).1 = .mk [] [] [] ∧
      (bin_vdf_parse [9, 65, 0] [] [] []).2.val = []) :=
  ⟨(bin_vdf_decoder_safety.2.2.1 5 (by decide) [65] rfl [] [] []),
   (bin_vdf_decoder_safety.2.2.2.2.1 [65, 0, 66, 0] [65] [66, 0] [66] []
     rfl rfl [] [] []),
   (bin_vdf_decoder_safety.2.2.2.2.2.1 [65, 0, 66] [65] [66] rfl rfl
     [] [] []),
   (bin_vdf_decoder_safety.2.2.2.2.2.2.1 [65, 0, 1, 0, 0, 0] [65] 1 0 0 0 []
     rfl [] [] []),
   (bin_vdf_decoder_safety.2.2.2.2.2.2.2.1 [65, 0, 1, 0] [65] [1, 0] rfl
     (by decide) [] [] []),
   (bin_vdf_decoder_safety.2.2.2.2.2.2.2.2 9 (by decide) (by decide)
     (by decide) (by decide) [65, 0] [65] [] rfl [] [] [])⟩

end TekS3
